import Mathlib

/-!
Verification of the CV-screening core of `src/main.py` (CV Lense).

Modelling conventions (shallow embedding):
* Python strings are modelled as `List Char` (`Str`); `str.lower`, the regex
  character classes, and `str.isdigit` are modelled at the ASCII level, which
  covers every marker, keyword and concrete input appearing in the source and
  in the properties under scrutiny.
* Python floats are modelled as exact rationals (`ℚ`); the scoring pipeline
  only adds, multiplies, divides by 500 and takes `min`, so the algorithmic
  content is independent of binary rounding.
* Functions that recurse along a string use an explicit fuel argument equal to
  the string length, keeping every definition structurally recursive and
  kernel-evaluable.
* Python dicts are modelled as association lists in insertion order.
* Filesystem/exception effects (`parse_pdf`, `unzip_pdfs`) are modelled by
  explicit environments/state: an `Except` value stands for a fallible step,
  an association list `path → content` stands for the working directory.
-/

abbrev Str := List Char

/-- Python whitespace class `\s` (ASCII part): space, tab, newline, carriage
return, vertical tab, form feed. -/
def isWs (c : Char) : Bool :=
  c == ' ' || c == '\t' || c == '\n' || c == '\r' || c.toNat == 11 || c.toNat == 12

def isAsciiUpper (c : Char) : Bool := 'A' ≤ c && c ≤ 'Z'

def isAsciiLower (c : Char) : Bool := 'a' ≤ c && c ≤ 'z'

def isAsciiAlpha (c : Char) : Bool := isAsciiUpper c || isAsciiLower c

def isAsciiDigit (c : Char) : Bool := '0' ≤ c && c ≤ '9'

def isAsciiAlnum (c : Char) : Bool := isAsciiAlpha c || isAsciiDigit c

/-- Python `str.lower`, ASCII case mapping (all strings the program compares
case-insensitively are ASCII). -/
def toLowerStr (s : Str) : Str := s.map Char.toLower

/-- Does `t` start with `pat`?  Models Python `str.startswith`. -/
def strStarts : Str → Str → Bool
  | [], _ => true
  | _ :: _, [] => false
  | p :: ps, c :: cs => p == c && strStarts ps cs

/-- Does `t` end with `pat`?  Models Python `str.endswith`. -/
def strEnds (pat t : Str) : Bool := strStarts pat.reverse t.reverse

/-- Auxiliary scan for `countOccs`: counts left-to-right non-overlapping
occurrences of the (non-empty) pattern, skipping the whole pattern after each
hit.  `fuel = length of the scanned string` suffices. -/
def countAux (pat : Str) : Nat → Str → Nat
  | _, [] => 0
  | 0, _ => 0
  | fuel + 1, c :: cs =>
    if strStarts pat (c :: cs) then 1 + countAux pat fuel (cs.drop (pat.length - 1))
    else countAux pat fuel cs

/-- Python `t.count(pat)`: number of non-overlapping occurrences of `pat` in
`t`, scanning left to right; the empty pattern counts `len(t) + 1` times. -/
def countOccs (pat t : Str) : Nat :=
  if pat = [] then t.length + 1 else countAux pat t.length t

/-- Auxiliary scan for `letterRuns` (fuel-driven). -/
def letterRunsAux : Nat → Str → List Str
  | _, [] => []
  | 0, _ => []
  | fuel + 1, c :: cs =>
    if isAsciiAlpha c then (c :: cs.takeWhile isAsciiAlpha) :: letterRunsAux fuel (cs.dropWhile isAsciiAlpha)
    else letterRunsAux fuel cs

/-- Maximal runs of ASCII letters in a string, in order.  `re.findall` with
pattern `[a-zA-Z]{3,}` returns exactly the runs of length at least 3. -/
def letterRuns (t : Str) : List Str := letterRunsAux t.length t

/-- Number of distinct alphabetic tokens of length at least 3, i.e.
`len(set(re.findall(r"[a-zA-Z]{3,}", t)))` from `Ranker.score`. -/
def diversityCount (t : Str) : Nat :=
  (((letterRuns t).filter (fun r => 3 ≤ r.length)).dedup).length

/-- Sum of the values of a keyword → contribution association list (the
running total accumulated by the loop in `Ranker.score`). -/
def sumVals : List (Str × ℚ) → ℚ
  | [] => 0
  | p :: l => p.2 + sumVals l

/-- Lowercased parse-error marker checked by `Ranker.score` (line 240). -/
def errLower : Str := "[parse_error]".toList

/-- Parse-error marker produced by `CVProcessor.parse_pdf` (line 197). -/
def errUpper : Str := "[PARSE_ERROR]".toList

/-- Python dict assignment `d[k] = v` on an insertion-ordered association
list: an existing key keeps its position and gets the new value, a new key is
appended. -/
def dictInsert (m : List (Str × ℚ)) (k : Str) (v : ℚ) : List (Str × ℚ) :=
  if m.any (fun p => p.1 == k) then m.map (fun p => if p.1 == k then (k, v) else p)
  else m ++ [(k, v)]

/-- Dict comprehension `{k.lower(): float(v) for k, v in keywords.items()}`
from `Ranker.__init__` (line 235). -/
def mkKeywords (profile : List (Str × ℚ)) : List (Str × ℚ) :=
  profile.foldl (fun m p => dictInsert m (toLowerStr p.1) p.2) []

/-- Internal state of a `Ranker`: lowercased keyword → weight dict and
lowercased role string. -/
structure Ranker where
  keywords : List (Str × ℚ)
  role : Str

/-- Model of `Ranker.__init__` (lines 234-236). -/
def Ranker.init (profile : List (Str × ℚ)) (role : Str) : Ranker :=
  ⟨mkKeywords profile, toLowerStr role⟩

/-- Per-keyword matched contributions of `Ranker.score` (lines 244-248): a
keyword with a positive occurrence count contributes `cnt * weight`. -/
def scorePairs (kws : List (Str × ℚ)) (t : Str) : List (Str × ℚ) :=
  kws.filterMap (fun kw =>
    if 0 < countOccs kw.1 t then some (kw.1, (countOccs kw.1 t : ℚ) * kw.2) else none)

/-- Role bonus of `Ranker.score` (lines 249-250): a non-empty role adds
`2.0 * t.count(role)`. -/
def roleBonus (role t : Str) : ℚ :=
  if role = [] then 0 else 2 * (countOccs role t : ℚ)

/-- Diversity bonus of `Ranker.score` (lines 251-252). -/
def divBonus (t : Str) : ℚ := min ((diversityCount t : ℚ) / 500) 5

/-- Model of `Ranker.score` (lines 238-253). -/
def Ranker.score (r : Ranker) (text : Str) : ℚ × List (Str × ℚ) :=
  if strStarts errLower (toLowerStr text) = true then (0, [])
  else
    (sumVals (scorePairs r.keywords (toLowerStr text))
       + roleBonus r.role (toLowerStr text) + divBonus (toLowerStr text),
     scorePairs r.keywords (toLowerStr text))

/-- Model of the `Candidate` dataclass (lines 126-135). -/
structure Candidate where
  name : Str
  email : Option Str
  phone : Option Str
  path : Str
  text : Str
  score : ℚ
  matched : List (Str × ℚ)
  summary : Str

/-- Scoring step of `CTkApp.rank_now` (lines 719-721): each candidate gets a
fresh `score`/`matched` from `Ranker.score` applied to its text; all other
fields are carried over unchanged. -/
def rankCand (r : Ranker) (c : Candidate) : Candidate :=
  ⟨c.name, c.email, c.phone, c.path, c.text,
   (Ranker.score r c.text).1, (Ranker.score r c.text).2, c.summary⟩

/-- Insertion step of the stable descending sort: a new element is placed
before the first element whose score is at most its own, hence after every
earlier element of equal score. -/
def insertDesc (c : Candidate) : List Candidate → List Candidate
  | [] => [c]
  | d :: ds => if d.score ≤ c.score then c :: d :: ds else d :: insertDesc c ds

/-- Model of `list.sort(key=lambda x: x.score, reverse=True)` (line 722).
Python's sort is specified as the stable descending sort by the key, and the
stable sort by a key is extensionally unique, so insertion sort realises it. -/
def sortDesc : List Candidate → List Candidate
  | [] => []
  | c :: cs => insertDesc c (sortDesc cs)

/-- Core of `CTkApp.rank_now` (lines 714-722): re-score every candidate, then
sort the list by score, descending and stable. -/
def rank_now (r : Ranker) (cands : List Candidate) : List Candidate :=
  sortDesc (cands.map (rankCand r))

/-- Python `str.strip()` with no argument: drop whitespace from both ends. -/
def pyStrip (s : Str) : Str :=
  ((s.dropWhile isWs).reverse.dropWhile isWs).reverse

/-- Auxiliary scan for `collapseWs` (fuel-driven). -/
def collapseWsAux : Nat → Str → Str
  | _, [] => []
  | 0, _ => []
  | fuel + 1, c :: cs =>
    if isWs c then ' ' :: collapseWsAux fuel (cs.dropWhile isWs)
    else c :: collapseWsAux fuel cs

/-- Model of `re.sub(r"\s+", " ", s)`: every maximal whitespace run becomes a
single space. -/
def collapseWs (s : Str) : Str := collapseWsAux s.length s

/-- Auxiliary scan for `pySplitWs` (fuel-driven). -/
def pySplitWsAux : Nat → Str → List Str
  | _, [] => []
  | 0, _ => []
  | fuel + 1, c :: cs =>
    if isWs c then pySplitWsAux fuel cs
    else (c :: cs.takeWhile (fun d => !isWs d)) :: pySplitWsAux fuel (cs.dropWhile (fun d => !isWs d))

/-- Python `str.split()` with no argument: whitespace-delimited tokens, empty
tokens dropped. -/
def pySplitWs (s : Str) : List Str := pySplitWsAux s.length s

/-- Auxiliary scan for `splitOnSep` (fuel-driven); `acc` is the current
segment, reversed. -/
def splitOnSepAux (sep : Str) : Nat → Str → Str → List Str
  | _, acc, [] => [acc.reverse]
  | 0, acc, rest => [acc.reverse ++ rest]
  | fuel + 1, acc, c :: cs =>
    if strStarts sep (c :: cs) then acc.reverse :: splitOnSepAux sep fuel [] (cs.drop (sep.length - 1))
    else splitOnSepAux sep fuel (c :: acc) cs

/-- Python `str.split(sep)` with a non-empty separator: non-overlapping
leftmost occurrences of `sep` bound the segments. -/
def splitOnSep (sep s : Str) : List Str := splitOnSepAux sep s.length [] s

/-- Character class `[A-Za-z '’-]` kept by the name-cleanup substitutions in
`CVProcessor.extract_contacts` (lines 207, 219, 227). -/
def isNameChar (c : Char) : Bool :=
  isAsciiAlpha c || c == ' ' || c == '\'' || c == '’' || c == '-'

/-- Model of `re.sub(r"[^A-Za-z '’-]", " ", s)`: every other character becomes
a space. -/
def stripNonName (s : Str) : Str :=
  s.map (fun c => if isNameChar c then c else ' ')

/-- Word characters for the regex word boundary `\b`. -/
def isWordChar (c : Char) : Bool := isAsciiAlnum c || c == '_'

/-- One word of `CVProcessor.NAME_LINE_RE` (line 141): an uppercase ASCII
letter followed by at least one character from `[A-Za-z'’-]`. -/
def nameWordOk : Str → Bool
  | [] => false
  | c :: cs => isAsciiUpper c && !cs.isEmpty && cs.all (fun d => isAsciiAlpha d || d == '\'' || d == '’' || d == '-')

/-- Full match of `NAME_LINE_RE`, `^[A-Z][A-Za-z'’-]+(?: [A-Z][A-Za-z'’-]+){0,3}$`:
one to four capitalized words separated by single spaces. -/
def nameLineMatch (s : Str) : Bool :=
  let ws := s.splitOn ' '
  decide (ws.length ≤ 4) && ws.all nameWordOk

/-- First name attempt of `extract_contacts` (lines 204-214): take the first
50 whitespace tokens, blank out non-name characters, split on double spaces
and accept the first clean capitalized segment. -/
def stepAName (text : Str) : Option Str :=
  let tokens := (pySplitWs (pyStrip (collapseWs text))).take 50
  let head := stripNonName (List.intercalate [' '] tokens)
  (splitOnSep ("  ".toList) head).findSome? (fun seg =>
    let ln := pyStrip seg
    if ln ≠ [] && !ln.any (fun c => c == '@') && !ln.any isAsciiDigit
        && decide (ln.length ≤ 60) && nameLineMatch ln
    then some ln else none)

/-- Does `\s+Email\b|@` (with `re.I`) match at the head of `s`?  Because the
whitespace run before a letter is necessarily maximal, `\s+` must consume the
whole run. -/
def ctxAnchor (s : Str) : Bool :=
  match s with
  | [] => false
  | c :: _ =>
    c == '@' ||
    (isWs c &&
      (let rest := s.dropWhile isWs
       strStarts ("email".toList) (toLowerStr rest) &&
         (match rest.drop 5 with
          | [] => true
          | d :: _ => !isWordChar d)))

/-- Lazy group of `(.{0,60}?)(?:\s+Email\b|@)` at a fixed start: the smallest
`n ≤ budget` such that the anchor matches after `n` non-newline characters. -/
def ctxLen : Nat → Str → Option Nat
  | budget, s =>
    if ctxAnchor s then some 0
    else
      match budget, s with
      | 0, _ => none
      | _, [] => none
      | b + 1, c :: cs => if c == '\n' then none else (ctxLen b cs).map (· + 1)

/-- Model of `re.search(r"(.{0,60}?)(?:\s+Email\b|@)", text, flags=re.I)`:
leftmost start position, then lazily smallest group; returns the group. -/
def ctxSearch : Str → Option Str
  | [] => if ctxAnchor [] then some [] else none
  | c :: cs =>
    match ctxLen 60 (c :: cs) with
    | some n => some ((c :: cs).take n)
    | none => ctxSearch cs

/-- Auxiliary scan for `squashWs2` (fuel-driven). -/
def squashWs2Aux : Nat → Str → Str
  | _, [] => []
  | 0, _ => []
  | fuel + 1, c :: cs =>
    if isWs c && (match cs with | d :: _ => isWs d | [] => false)
    then ' ' :: squashWs2Aux fuel (cs.dropWhile isWs)
    else c :: squashWs2Aux fuel cs

/-- Model of `re.sub(r"\s{2,}", " ", s)`: whitespace runs of length at least
two become a single space; single whitespace characters are kept verbatim. -/
def squashWs2 (s : Str) : Str := squashWs2Aux s.length s

/-- Second name attempt of `extract_contacts` (lines 216-222): the span just
before the word "Email" or an "@", cleaned, accepted when 2-60 characters. -/
def stepBName (text : Str) : Option Str :=
  match ctxSearch text with
  | none => none
  | some g =>
    let guess := squashWs2 (pyStrip (stripNonName g))
    if 2 ≤ guess.length && decide (guess.length ≤ 60) then some guess else none

/-- Local-part character class of `CVProcessor.EMAIL_RE` (line 139):
`[A-Za-z0-9._%+-]`. -/
def isLocalChar (c : Char) : Bool :=
  isAsciiAlnum c || c == '.' || c == '_' || c == '%' || c == '+' || c == '-'

/-- Domain character class of `EMAIL_RE`: `[A-Za-z0-9.-]`. -/
def isDomChar (c : Char) : Bool := isAsciiAlnum c || c == '.' || c == '-'

/-- Is position `d` of the domain run a dot followed by at least two ASCII
letters?  This is where `\.[A-Za-z]{2,}` can close the match. -/
def dotOk (run : Str) (d : Nat) : Bool :=
  match run.drop d with
  | '.' :: rest => decide (2 ≤ (rest.takeWhile isAsciiAlpha).length)
  | _ => false

/-- Greedy backtracking of `[A-Za-z0-9.-]+\.`: the largest `d ≥ 1` (searched
downward from the full run) at which the domain can stop before the dot. -/
def domSplit (run : Str) : Nat → Option Nat
  | 0 => none
  | d + 1 => if dotOk run (d + 1) then some (d + 1) else domSplit run d

/-- Attempt to match `EMAIL_RE` anchored at the head of `s`, following the
regex engine: maximal local part, literal `@`, then the domain backtracks
greedily to leave a dot and a maximal-run TLD of at least two letters. -/
def emailMatchAt (s : Str) : Option Str :=
  let loc := s.takeWhile isLocalChar
  if loc = [] then none
  else
    match s.drop loc.length with
    | '@' :: rest =>
      let run := rest.takeWhile isDomChar
      match domSplit run (run.length - 1) with
      | some d => some (loc ++ '@' :: (run.take d ++ '.' :: ((run.drop (d + 1)).takeWhile isAsciiAlpha)))
      | none => none
    | _ => none

/-- Model of `EMAIL_RE.search(text)`: first (leftmost) match. -/
def emailSearch : Str → Option Str
  | [] => none
  | c :: cs =>
    match emailMatchAt (c :: cs) with
    | some m => some m
    | none => emailSearch cs

/-- Consume exactly `n` ASCII digits (`\d{n}`), returning the remainder. -/
def digitsTake (n : Nat) (s : Str) : Option Str :=
  if (s.take n).length = n && (s.take n).all isAsciiDigit then some (s.drop n) else none

/-- Greedy optional separator `[- ]?`: try consuming a hyphen or space first,
then fall back to consuming nothing. -/
def sepOpt (s : Str) (k : Str → Option Str) : Option Str :=
  match s with
  | c :: cs => if c == '-' || c == ' ' then k cs <|> k s else k s
  | [] => k []

/-- Core of `CVProcessor.PHONE_RE` (line 140): `\d{3}[- ]?\d{3}[- ]?\d{4}`. -/
def phoneCore (s : Str) : Option Str :=
  (digitsTake 3 s).bind (fun r1 =>
    sepOpt r1 (fun r2 =>
      (digitsTake 3 r2).bind (fun r3 =>
        sepOpt r3 (fun r4 => digitsTake 4 r4))))

/-- Greedy optional country code `(?:\+\d{1,3}[- ]?)?` followed by the core:
`\d{1,3}` tries three, two, then one digit. -/
def phoneMatchAt (s : Str) : Option Str :=
  (match s with
   | '+' :: cs =>
     ((digitsTake 3 cs).bind (fun r => sepOpt r phoneCore)) <|>
     ((digitsTake 2 cs).bind (fun r => sepOpt r phoneCore)) <|>
     ((digitsTake 1 cs).bind (fun r => sepOpt r phoneCore))
   | _ => none) <|>
  phoneCore s

/-- Model of `PHONE_RE.search(text)`: leftmost match, returned as the matched
substring. -/
def phoneSearch : Str → Option Str
  | [] => none
  | c :: cs =>
    match phoneMatchAt (c :: cs) with
    | some rest => some ((c :: cs).take ((c :: cs).length - rest.length))
    | none => phoneSearch cs

/-- Python `os.path.basename` (POSIX): the part after the last slash. -/
def pyBasename (p : Str) : Str :=
  (p.reverse.takeWhile (fun c => !(c == '/'))).reverse

/-- Root part of Python `os.path.splitext`: split at the last dot unless every
character before it (in the basename) is itself a dot. -/
def pySplitext (p : Str) : Str :=
  let ext := p.reverse.takeWhile (fun c => !(c == '.'))
  if ext.length = p.length then p
  else
    let root := p.take (p.length - ext.length - 1)
    if root.all (fun c => c == '.') then p else root

/-- Auxiliary scan for `squashUnders` (fuel-driven). -/
def squashUndersAux : Nat → Str → Str
  | _, [] => []
  | 0, _ => []
  | fuel + 1, c :: cs =>
    if c == '_' || c == '-' then ' ' :: squashUndersAux fuel (cs.dropWhile (fun d => d == '_' || d == '-'))
    else c :: squashUndersAux fuel cs

/-- Model of `re.sub(r"[_\-]+", " ", s)`: each run of underscores/hyphens
becomes a single space. -/
def squashUnders (s : Str) : Str := squashUndersAux s.length s

/-- Filename-derived name string of `extract_contacts` (lines 225-227),
before the placeholder test: strip extension, turn `_`/`-` runs into spaces,
blank non-name characters, strip. -/
def fallbackBase (fb : Str) : Str :=
  pyStrip (stripNonName (squashUnders (pySplitext (pyBasename fb))))

/-- Filename fallback of `extract_contacts` (lines 224-228): the cleaned
filename, or the fixed placeholder when it is empty. -/
def fallbackNameOf (fb : Str) : Str :=
  if fallbackBase fb = [] then "(Unknown)".toList else fallbackBase fb

/-- Model of `CVProcessor.extract_contacts` (lines 199-230): best-guess name
(three attempts in order), first email match, first phone match. -/
def extract_contacts (text fb : Str) : Str × Option Str × Option Str :=
  let name :=
    match stepAName text with
    | some n => n
    | none =>
      match stepBName text with
      | some n => n
      | none => fallbackNameOf fb
  (name, emailSearch text, phoneSearch text)

/-- Is a byte a UTF-8 continuation byte (`0x80-0xBF`)? -/
def isCont (b : Nat) : Bool := 0x80 ≤ b && b ≤ 0xBF

/-- Auxiliary scan for `utf8DecodeIgnore` (fuel-driven).  CPython's
`errors="ignore"` decoder: valid sequences decode, an invalid or truncated
sequence is skipped up to its first offending byte and decoding resumes
there. -/
def utf8Aux : Nat → List Nat → List Char
  | _, [] => []
  | 0, _ => []
  | fuel + 1, b :: bs =>
    if b < 0x80 then Char.ofNat b :: utf8Aux fuel bs
    else if 0xC2 ≤ b && b ≤ 0xDF then
      match bs with
      | [] => []
      | b2 :: bs2 =>
        if isCont b2 then Char.ofNat ((b - 0xC0) * 64 + (b2 - 0x80)) :: utf8Aux fuel bs2
        else utf8Aux fuel bs
    else if 0xE0 ≤ b && b ≤ 0xEF then
      match bs with
      | [] => []
      | b2 :: bs2 =>
        if (b == 0xE0 && 0xA0 ≤ b2 && b2 ≤ 0xBF)
            || (b == 0xED && 0x80 ≤ b2 && b2 ≤ 0x9F)
            || (b ≠ 0xE0 && b ≠ 0xED && isCont b2) then
          match bs2 with
          | [] => []
          | b3 :: bs3 =>
            if isCont b3 then
              Char.ofNat ((b - 0xE0) * 4096 + (b2 - 0x80) * 64 + (b3 - 0x80)) :: utf8Aux fuel bs3
            else utf8Aux fuel bs2
        else utf8Aux fuel bs
    else if 0xF0 ≤ b && b ≤ 0xF4 then
      match bs with
      | [] => []
      | b2 :: bs2 =>
        if (b == 0xF0 && 0x90 ≤ b2 && b2 ≤ 0xBF)
            || (b == 0xF4 && 0x80 ≤ b2 && b2 ≤ 0x8F)
            || (b ≠ 0xF0 && b ≠ 0xF4 && isCont b2) then
          match bs2 with
          | [] => []
          | b3 :: bs3 =>
            if isCont b3 then
              match bs3 with
              | [] => []
              | b4 :: bs4 =>
                if isCont b4 then
                  Char.ofNat ((b - 0xF0) * 262144 + (b2 - 0x80) * 4096 + (b3 - 0x80) * 64 + (b4 - 0x80)) :: utf8Aux fuel bs4
                else utf8Aux fuel bs3
            else utf8Aux fuel bs2
        else utf8Aux fuel bs
    else utf8Aux fuel bs

/-- Python `bytes.decode("utf-8", errors="ignore")`. -/
def utf8DecodeIgnore (data : List Nat) : Str := utf8Aux data.length data

/-- Byte class kept by the crude fallback of `parse_pdf` (line 187):
printable ASCII, tab/newline/carriage return, or `0x80-0xFD`. -/
def keepByte (b : Nat) : Bool :=
  (32 ≤ b && b ≤ 126) || b == 9 || b == 10 || b == 13 || (128 ≤ b && b ≤ 253)

/-- Model of `flush()` in `parse_pdf` (lines 179-185): decode the buffered
bytes; keep the chunk only if it is non-blank. -/
def flushChunk (buf : List Nat) : List Str :=
  let s := utf8DecodeIgnore buf
  if pyStrip s = [] then [] else [s]

/-- Byte-scavenging loop of `parse_pdf` (lines 178-191): accumulate runs of
kept bytes, flushing the buffer at each rejected byte and at the end. -/
def scavChunks : List Nat → List Nat → List Str
  | [], buf => flushChunk buf
  | b :: bs, buf =>
    if keepByte b then scavChunks bs (buf ++ [b])
    else flushChunk buf ++ scavChunks bs []

/-- Match a glyph artifact `\(cid:\d+\)` at the head of `s`, returning its
length. -/
def cidLen (s : Str) : Option Nat :=
  if strStarts ("(cid:".toList) s then
    let ds := (s.drop 5).takeWhile isAsciiDigit
    if ds ≠ [] && (match s.drop (5 + ds.length) with | ')' :: _ => true | _ => false)
    then some (6 + ds.length) else none
  else none

/-- Auxiliary scan for `cidStrip` (fuel-driven). -/
def cidStripAux : Nat → Str → Str
  | _, [] => []
  | 0, s => s
  | fuel + 1, c :: cs =>
    match cidLen (c :: cs) with
    | some n => ' ' :: cidStripAux fuel ((c :: cs).drop n)
    | none => c :: cidStripAux fuel cs

/-- Model of `re.sub(r"\(cid:\d+\)", " ", s)` (line 193). -/
def cidStrip (s : Str) : Str := cidStripAux s.length s

/-- Scavenged text of the crude fallback (lines 192-195): chunks joined by
single spaces, glyph artifacts blanked, whitespace collapsed, stripped. -/
def scavengeText (data : List Nat) : Str :=
  pyStrip (collapseWs (cidStrip (List.intercalate [' '] (scavChunks data []))))

/-- Magic header `b"%PDF"` (line 174). -/
def pdfMagic : List Nat := [0x25, 0x50, 0x44, 0x46]

/-- Does the byte stream start with the given byte prefix? -/
def bytesStart : List Nat → List Nat → Bool
  | [], _ => true
  | _ :: _, [] => false
  | p :: ps, b :: bs => p == b && bytesStart ps bs

/-- Environment of one `parse_pdf` call: whether a pdfminer-style extractor
is importable, the outcome of calling it, and the outcome of reading the file
bytes.  An `Except.error` is a raised exception with its message. -/
structure PdfEnv where
  hasPdfminer : Bool
  minerResult : Except Str Str
  readResult : Except Str (List Nat)

/-- Body of `parse_pdf` (lines 167-195), before the enclosing
`try`/`except`: pdfminer branch, plain-text branch, or byte-scavenging
branch; a failing step propagates its exception. -/
def parseBody (env : PdfEnv) : Except Str Str :=
  if env.hasPdfminer then
    match env.minerResult with
    | Except.error e => Except.error e
    | Except.ok raw => Except.ok (pyStrip (collapseWs raw))
  else
    match env.readResult with
    | Except.error e => Except.error e
    | Except.ok data =>
      if bytesStart pdfMagic data then Except.ok (scavengeText data)
      else Except.ok (pyStrip (collapseWs (utf8DecodeIgnore data)))

/-- Model of `CVProcessor.parse_pdf` (lines 166-197): the whole body runs
inside `try`/`except`, and any exception is converted into the sentinel
string `f"[PARSE_ERROR] {e}"` instead of being re-raised. -/
def parse_pdf (env : PdfEnv) : Str :=
  match parseBody env with
  | Except.ok s => s
  | Except.error e => errUpper ++ ' ' :: e

/-- One entry of a ZIP archive: its full member name (with `/`-separated
directories) and an abstract content identifier. -/
structure ZipMember where
  filename : Str
  content : Nat

/-- Join a directory and a relative path, as `os.path.join` does for the
arguments appearing in `unzip_pdfs`. -/
def pathJoin (dir rel : Str) : Str := dir ++ '/' :: rel

/-- Write (create or overwrite) a path in the modelled working directory. -/
def fsWrite (fs : List (Str × Nat)) (p : Str) (v : Nat) : List (Str × Nat) :=
  if fs.any (fun q => q.1 == p) then fs.map (fun q => if q.1 == p then (p, v) else q)
  else fs ++ [(p, v)]

/-- Remove a path from the modelled working directory. -/
def fsErase (fs : List (Str × Nat)) (p : Str) : List (Str × Nat) :=
  fs.filter (fun q => !(q.1 == p))

/-- Content stored at a path, if any. -/
def fsGet (fs : List (Str × Nat)) (p : Str) : Option Nat :=
  (fs.find? (fun q => q.1 == p)).map (fun q => q.2)

/-- One iteration of the member loop of `unzip_pdfs` (lines 152-163): a
member whose lowercased name ends in `.pdf` is extracted to
`cache/<member name>` and then moved (`shutil.move`, which overwrites an
existing destination file) to `cache/<basename>`; that destination is
appended to the output list.  Other members are skipped. -/
def unzipStep (cache : Str) (st : List Str × List (Str × Nat)) (m : ZipMember) :
    List Str × List (Str × Nat) :=
  if strEnds (".pdf".toList) (toLowerStr m.filename) then
    let dest := pathJoin cache (pyBasename m.filename)
    let src := pathJoin cache m.filename
    let fs := fsWrite st.2 src m.content
    if src = dest then (st.1 ++ [dest], fs)
    else (st.1 ++ [dest], fsWrite (fsErase fs src) dest m.content)
  else st

/-- Model of `CVProcessor.unzip_pdfs` (lines 149-164) on the success path
(no I/O exceptions): returns the list of produced paths and the final state
of the working directory. -/
def unzip_pdfs (cache : Str) (members : List ZipMember) : List Str × List (Str × Nat) :=
  members.foldl (unzipStep cache) ([], [])

/-- Concrete keyword of Scenario A. -/
def kwPython : Str := "python".toList

/-- Concrete keyword of Scenario A. -/
def kwSql : Str := "sql".toList

/-- Concrete text of Scenario A. -/
def janeText : Str := "Jane Doe jane.doe@example.com Python Python SQL".toList

/-- Concrete keyword profile of Scenario A. -/
def janeProfile : List (Str × ℚ) := [(kwPython, 2), (kwSql, 1)]

/-- Concrete candidate text used for the tie-breaking scenario: one `python`
hit of weight 4.998 plus the diversity bonus 1/500 gives the exact score 5. -/
def pyTxt : Str := "python".toList

/-- Ranker of the tie-breaking scenario. -/
def tieRanker : Ranker := Ranker.init [(kwPython, 4998 / 1000)] []

/-- First candidate of the tie-breaking scenario. -/
def candX : Candidate := ⟨("X".toList), none, none, ("x.pdf".toList), pyTxt, 0, [], []⟩

/-- Second candidate of the tie-breaking scenario. -/
def candY : Candidate := ⟨("Y".toList), none, none, ("y.pdf".toList), pyTxt, 0, [], []⟩

/-! Helper lemmas. -/

theorem strStarts_toLower (p t : Str) (h : strStarts p t = true) :
    strStarts (toLowerStr p) (toLowerStr t) = true := by
  induction p generalizing t with
  | nil => simp [strStarts, toLowerStr]
  | cons c cs ih =>
    cases t with
    | nil => simp [strStarts] at h
    | cons d ds =>
      simp only [strStarts, Bool.and_eq_true, beq_iff_eq] at h
      simp only [toLowerStr, List.map_cons, strStarts, Bool.and_eq_true, beq_iff_eq]
      exact ⟨by rw [h.1], ih ds h.2⟩

theorem strStarts_append (p x : Str) : strStarts p (p ++ x) = true := by
  induction p with
  | nil => simp [strStarts]
  | cons c cs ih => simp [strStarts, ih]

theorem score_of_not_err (r : Ranker) (text : Str)
    (h : strStarts errLower (toLowerStr text) = false) :
    Ranker.score r text
      = (sumVals (scorePairs r.keywords (toLowerStr text))
           + roleBonus r.role (toLowerStr text) + divBonus (toLowerStr text),
         scorePairs r.keywords (toLowerStr text)) := by
  simp [Ranker.score, h]

theorem mem_scorePairs (kws : List (Str × ℚ)) (t k : Str) (c : ℚ) :
    (k, c) ∈ scorePairs kws t
      ↔ ∃ w, (k, w) ∈ kws ∧ 0 < countOccs k t ∧ c = (countOccs k t : ℚ) * w := by
  simp only [scorePairs, List.mem_filterMap]
  constructor
  · rintro ⟨⟨k', w⟩, hm, hf⟩
    by_cases hc : 0 < countOccs k' t
    · simp only [hc, if_pos, Prod.mk.injEq] at hf
      obtain ⟨rfl, rfl⟩ := hf
      exact ⟨w, hm, hc, rfl⟩
    · simp [hc] at hf
  · rintro ⟨w, hm, hc, rfl⟩
    exact ⟨(k, w), hm, by simp [hc]⟩

theorem scorePairs_nil_of_no_hit (kws : List (Str × ℚ)) (t : Str)
    (h : ∀ kw ∈ kws, countOccs kw.1 t = 0) : scorePairs kws t = [] := by
  simp only [scorePairs, List.filterMap_eq_nil_iff]
  intro kw hkw
  simp [h kw hkw]

/-- Pointwise order on keyword dicts: same keys in the same positions,
weights at most as large on the left. -/
def KwLE (l₁ l₂ : List (Str × ℚ)) : Prop :=
  List.Forall₂ (fun p q => p.1 = q.1 ∧ p.2 ≤ q.2) l₁ l₂

theorem kwLE_refl (l : List (Str × ℚ)) : KwLE l l :=
  List.forall₂_same.mpr (fun _ _ => ⟨rfl, le_refl _⟩)

theorem kwLE_keys {l₁ l₂ : List (Str × ℚ)} (h : KwLE l₁ l₂) :
    l₁.map Prod.fst = l₂.map Prod.fst := by
  induction h with
  | nil => rfl
  | cons hpq _ ih => simp [ih, hpq.1]

theorem kwLE_any {l₁ l₂ : List (Str × ℚ)} (h : KwLE l₁ l₂) (k : Str) :
    l₁.any (fun p => p.1 == k) = l₂.any (fun p => p.1 == k) := by
  have h1 : ∀ l : List (Str × ℚ), l.any (fun p => p.1 == k) = (l.map Prod.fst).any (fun a => a == k) := by
    intro l; induction l with
    | nil => rfl
    | cons p ps ih => simp [List.any_cons, ih]
  rw [h1, h1, kwLE_keys h]

theorem mapReplace_le {m₁ m₂ : List (Str × ℚ)} (h : KwLE m₁ m₂) (k : Str)
    {v₁ v₂ : ℚ} (hv : v₁ ≤ v₂) :
    KwLE (m₁.map (fun p => if p.1 == k then (k, v₁) else p))
      (m₂.map (fun p => if p.1 == k then (k, v₂) else p)) := by
  induction h with
  | nil => exact List.Forall₂.nil
  | @cons p q l₁ l₂ hpq htail ih =>
    simp only [List.map_cons]
    refine List.Forall₂.cons ?_ ih
    by_cases hpk : p.1 = k
    · have hqk : q.1 = k := by rw [← hpq.1]; exact hpk
      simp [hpk, hqk, hv]
    · have hqk : ¬(q.1 = k) := by rw [← hpq.1]; exact hpk
      simp only [beq_iff_eq, hpk, hqk, if_neg, if_false]
      exact hpq

theorem dictInsert_le {m₁ m₂ : List (Str × ℚ)} (h : KwLE m₁ m₂) (k : Str)
    {v₁ v₂ : ℚ} (hv : v₁ ≤ v₂) : KwLE (dictInsert m₁ k v₁) (dictInsert m₂ k v₂) := by
  unfold dictInsert
  rw [kwLE_any h k]
  by_cases hk : m₂.any (fun p => p.1 == k) = true
  · simp only [hk, if_pos]
    exact mapReplace_le h k hv
  · simp only [hk, if_neg, Bool.false_eq_true, if_false]
    exact List.rel_append h (List.Forall₂.cons ⟨rfl, hv⟩ List.Forall₂.nil)

theorem mkKeywords_foldl_le {in₁ in₂ : List (Str × ℚ)}
    (hin : List.Forall₂ (fun p q => p.1 = q.1 ∧ p.2 ≤ q.2) in₁ in₂) :
    ∀ acc₁ acc₂ : List (Str × ℚ), KwLE acc₁ acc₂ →
      KwLE (in₁.foldl (fun m p => dictInsert m (toLowerStr p.1) p.2) acc₁)
        (in₂.foldl (fun m p => dictInsert m (toLowerStr p.1) p.2) acc₂) := by
  induction hin with
  | nil => intro a₁ a₂ h; exact h
  | cons hpq _ ih =>
    intro a₁ a₂ hacc
    simp only [List.foldl_cons]
    apply ih
    rw [hpq.1]
    exact dictInsert_le hacc _ hpq.2

theorem sumVals_scorePairs_le {l₁ l₂ : List (Str × ℚ)} (h : KwLE l₁ l₂) (t : Str) :
    sumVals (scorePairs l₁ t) ≤ sumVals (scorePairs l₂ t) := by
  induction h with
  | nil => simp [scorePairs, sumVals]
  | @cons p q l₁' l₂' hpq _ ih =>
    obtain ⟨hk, hw⟩ := hpq
    simp only [scorePairs, List.filterMap_cons, hk]
    by_cases hc : 0 < countOccs q.1 t
    · simp only [hc, if_pos]
      simp only [sumVals]
      refine add_le_add ?_ ih
      exact mul_le_mul_of_nonneg_left hw (by positivity)
    · simp only [hc, if_neg, if_false]
      exact ih

theorem mem_insertDesc (c x : Candidate) (l : List Candidate) :
    x ∈ insertDesc c l ↔ x = c ∨ x ∈ l := by
  induction l with
  | nil => simp [insertDesc]
  | cons d ds ih =>
    by_cases hd : d.score ≤ c.score
    · simp [insertDesc, hd]
    · simp only [insertDesc, hd, if_neg, if_false, List.mem_cons, ih]
      tauto

theorem insertDesc_pairwise (c : Candidate) (l : List Candidate)
    (h : List.Pairwise (fun a b => b.score ≤ a.score) l) :
    List.Pairwise (fun a b => b.score ≤ a.score) (insertDesc c l) := by
  induction l with
  | nil => simp [insertDesc]
  | cons d ds ih =>
    rw [List.pairwise_cons] at h
    by_cases hd : d.score ≤ c.score
    · simp only [insertDesc, hd, if_pos]
      rw [List.pairwise_cons]
      refine ⟨?_, List.pairwise_cons.mpr h⟩
      intro x hx
      rcases List.mem_cons.mp hx with rfl | hx'
      · exact hd
      · exact le_trans (h.1 x hx') hd
    · simp only [insertDesc, hd, if_neg, if_false]
      rw [List.pairwise_cons]
      refine ⟨?_, ih h.2⟩
      intro x hx
      rcases (mem_insertDesc c x ds).mp hx with rfl | hx'
      · exact le_of_not_le hd
      · exact h.1 x hx'

theorem sortDesc_pairwise (l : List Candidate) :
    List.Pairwise (fun a b => b.score ≤ a.score) (sortDesc l) := by
  induction l with
  | nil => simp [sortDesc]
  | cons c cs ih => exact insertDesc_pairwise c (sortDesc cs) ih

theorem filter_insertDesc (c : Candidate) (l : List Candidate) (s : ℚ) :
    (insertDesc c l).filter (fun d => d.score == s)
      = (c :: l).filter (fun d => d.score == s) := by
  induction l with
  | nil => simp [insertDesc]
  | cons d ds ih =>
    by_cases hd : d.score ≤ c.score
    · simp [insertDesc, hd]
    · have hlt : c.score < d.score := lt_of_not_le hd
      simp only [insertDesc, hd, if_neg, if_false]
      by_cases hcs : c.score = s
      · have hds : ¬(d.score = s) := by
          intro hds
          exact absurd (hds.trans hcs.symm) (ne_of_gt hlt)
        simp [List.filter_cons, hcs, hds, ih]
      · simp [List.filter_cons, hcs, ih]

theorem sortDesc_filter (l : List Candidate) (s : ℚ) :
    (sortDesc l).filter (fun d => d.score == s) = l.filter (fun d => d.score == s) := by
  induction l with
  | nil => rfl
  | cons c cs ih =>
    rw [sortDesc, filter_insertDesc]
    simp only [List.filter_cons, ih]

theorem mem_stripNonName (s : Str) (c : Char) (h : c ∈ stripNonName s) :
    isNameChar c = true := by
  simp only [stripNonName, List.mem_map] at h
  obtain ⟨d, _, hd⟩ := h
  by_cases hnc : isNameChar d = true
  · rw [if_pos hnc] at hd; rw [← hd]; exact hnc
  · rw [if_neg hnc] at hd; rw [← hd]; decide

theorem mem_pyStrip (s : Str) (c : Char) (h : c ∈ pyStrip s) : c ∈ s := by
  unfold pyStrip at h
  rw [List.mem_reverse] at h
  have h1 := (List.dropWhile_sublist (l := (s.dropWhile isWs).reverse) isWs).mem h
  rw [List.mem_reverse] at h1
  exact (List.dropWhile_sublist isWs).mem h1

theorem fallbackBase_ne_unknown (f : Str) : ¬(fallbackBase f = "(Unknown)".toList) := by
  intro hcontra
  have hmem : '(' ∈ fallbackBase f := by rw [hcontra]; decide
  have := mem_stripNonName _ _ (mem_pyStrip _ _ hmem)
  simp [isNameChar, isAsciiAlpha, isAsciiUpper, isAsciiLower] at this

theorem unzip_foldl_out (cache : Str) (members : List ZipMember) :
    ∀ out fs, (members.foldl (unzipStep cache) (out, fs)).1
      = out ++ (members.filter (fun m => strEnds (".pdf".toList) (toLowerStr m.filename))).map
          (fun m => pathJoin cache (pyBasename m.filename)) := by
  induction members with
  | nil => intro out fs; simp
  | cons m ms ih =>
    intro out fs
    by_cases hm : strEnds (".pdf".toList) (toLowerStr m.filename) = true
    · simp only [List.foldl_cons, List.filter_cons, hm, if_pos, List.map_cons]
      by_cases hsd : pathJoin cache m.filename = pathJoin cache (pyBasename m.filename)
      · simp only [unzipStep, hm, if_pos, hsd, if_pos]
        rw [ih]
        simp
      · simp only [unzipStep, hm, if_pos, hsd, if_neg, if_false]
        rw [ih]
        simp
    · simp only [List.foldl_cons, List.filter_cons, hm, Bool.false_eq_true, if_false]
      have hstep : unzipStep cache (out, fs) m = (out, fs) := by
        unfold unzipStep
        rw [if_neg hm]
      rw [hstep, ih]

/-! Claim theorems. -/

/-- C2: for every keyword profile (any keywords, any weights, any role) and
every text beginning with the error marker `[PARSE_ERROR]`, `Ranker.score`
returns exactly score 0 and an empty matched mapping — no keyword, role, or
diversity contribution is added. -/
theorem score_error_marker (profile : List (Str × ℚ)) (role text : Str)
    (h : strStarts errUpper text = true) :
    Ranker.score (Ranker.init profile role) text = (0, []) := by
  have hl := strStarts_toLower errUpper text h
  have hm : toLowerStr errUpper = errLower := by decide
  rw [hm] at hl
  simp [Ranker.score, hl]

/-- Witness for `score_error_marker` at a concrete profile, role and text. -/
theorem score_error_marker_witness :
    strStarts errUpper ("[PARSE_ERROR] boom".toList) = true ∧
    Ranker.score (Ranker.init [(("python".toList), 3)] ("dev".toList)) ("[PARSE_ERROR] boom".toList)
      = (0, []) :=
  ⟨by decide, score_error_marker [(("python".toList), 3)] ("dev".toList) ("[PARSE_ERROR] boom".toList) (by decide)⟩

/-- C10: a `Ranker` constructed with an empty role adds no role bonus: for a
text that does not carry the error marker, the score is exactly the sum of
the matched keyword contributions plus the capped diversity bonus — even
though the empty string occurs as a substring `len(t) + 1` times, so an
unguarded role bonus would have added `2 * (len(t) + 1)`. -/
theorem score_empty_role (profile : List (Str × ℚ)) (text : Str)
    (h : strStarts errLower (toLowerStr text) = false) :
    (Ranker.score (Ranker.init profile []) text).1
        = sumVals ((Ranker.score (Ranker.init profile []) text).2) + divBonus (toLowerStr text) ∧
      countOccs [] (toLowerStr text) = (toLowerStr text).length + 1 := by
  constructor
  · rw [score_of_not_err _ _ h]
    have hrole : (Ranker.init profile []).role = [] := rfl
    simp [hrole, roleBonus]
  · simp [countOccs]

/-- Witness for `score_empty_role` at a concrete profile and text. -/
theorem score_empty_role_witness :
    strStarts errLower (toLowerStr ("two words".toList)) = false ∧
    ((Ranker.score (Ranker.init [(("words".toList), 2)] []) ("two words".toList)).1
        = sumVals ((Ranker.score (Ranker.init [(("words".toList), 2)] []) ("two words".toList)).2)
            + divBonus (toLowerStr ("two words".toList)) ∧
      countOccs [] (toLowerStr ("two words".toList)) = (toLowerStr ("two words".toList)).length + 1) :=
  ⟨by decide, score_empty_role [(("words".toList), 2)] ("two words".toList) (by decide)⟩

/-- C1 counterexample: the claim quantifies over *every* input text, but for
a text that begins with the error marker the matched map is empty even when a
profile keyword does occur in the lowercased text, so "`k` is a key of
`matched` iff `cnt > 0`" fails there. -/
theorem score_matched_counterexample :
    0 < countOccs ("python".toList) (toLowerStr ("[PARSE_ERROR] python".toList)) ∧
    (Ranker.score (Ranker.init [(("python".toList), 1)] []) ("[PARSE_ERROR] python".toList)).2
      = [] := by
  constructor
  · decide
  · decide

/-- C1 amended: for every keyword profile and every text that does not begin
(after lowercasing) with the error marker, the matched map of `Ranker.score`
holds exactly the stored profile keywords with a positive non-overlapping
occurrence count in the lowercased text, each mapped to `cnt * weight`; the
total is the sum of those contributions plus the role and diversity bonuses;
and if no stored keyword occurs, the matched map is empty. -/
theorem score_matched_characterization (profile : List (Str × ℚ)) (role text : Str)
    (h : strStarts errLower (toLowerStr text) = false) :
    (∀ k c, (k, c) ∈ (Ranker.score (Ranker.init profile role) text).2 →
        ∃ w, (k, w) ∈ (Ranker.init profile role).keywords ∧
          0 < countOccs k (toLowerStr text) ∧ c = (countOccs k (toLowerStr text) : ℚ) * w) ∧
    (∀ k w, (k, w) ∈ (Ranker.init profile role).keywords →
        0 < countOccs k (toLowerStr text) →
        (k, (countOccs k (toLowerStr text) : ℚ) * w) ∈ (Ranker.score (Ranker.init profile role) text).2) ∧
    (Ranker.score (Ranker.init profile role) text).1
      = sumVals ((Ranker.score (Ranker.init profile role) text).2)
        + roleBonus (Ranker.init profile role).role (toLowerStr text)
        + divBonus (toLowerStr text) ∧
    ((∀ kw ∈ (Ranker.init profile role).keywords, countOccs kw.1 (toLowerStr text) = 0) →
        (Ranker.score (Ranker.init profile role) text).2 = []) := by
  rw [score_of_not_err _ _ h]
  refine ⟨?_, ?_, rfl, ?_⟩
  · intro k c hm
    exact (mem_scorePairs _ _ _ _).mp hm
  · intro k w hm hc
    exact (mem_scorePairs _ _ _ _).mpr ⟨w, hm, hc, rfl⟩
  · intro hall
    exact scorePairs_nil_of_no_hit _ _ hall

/-- Witness for `score_matched_characterization` at a concrete profile, role
and text. -/
theorem score_matched_characterization_witness :
    strStarts errLower (toLowerStr ("no python? yes python!".toList)) = false ∧
    ((∀ k c, (k, c) ∈ (Ranker.score (Ranker.init [(("Python".toList), 2)] ("dev".toList)) ("no python? yes python!".toList)).2 →
        ∃ w, (k, w) ∈ (Ranker.init [(("Python".toList), 2)] ("dev".toList)).keywords ∧
          0 < countOccs k (toLowerStr ("no python? yes python!".toList)) ∧
          c = (countOccs k (toLowerStr ("no python? yes python!".toList)) : ℚ) * w) ∧
    (∀ k w, (k, w) ∈ (Ranker.init [(("Python".toList), 2)] ("dev".toList)).keywords →
        0 < countOccs k (toLowerStr ("no python? yes python!".toList)) →
        (k, (countOccs k (toLowerStr ("no python? yes python!".toList)) : ℚ) * w)
          ∈ (Ranker.score (Ranker.init [(("Python".toList), 2)] ("dev".toList)) ("no python? yes python!".toList)).2) ∧
    (Ranker.score (Ranker.init [(("Python".toList), 2)] ("dev".toList)) ("no python? yes python!".toList)).1
      = sumVals ((Ranker.score (Ranker.init [(("Python".toList), 2)] ("dev".toList)) ("no python? yes python!".toList)).2)
        + roleBonus (Ranker.init [(("Python".toList), 2)] ("dev".toList)).role (toLowerStr ("no python? yes python!".toList))
        + divBonus (toLowerStr ("no python? yes python!".toList)) ∧
    ((∀ kw ∈ (Ranker.init [(("Python".toList), 2)] ("dev".toList)).keywords,
        countOccs kw.1 (toLowerStr ("no python? yes python!".toList)) = 0) →
        (Ranker.score (Ranker.init [(("Python".toList), 2)] ("dev".toList)) ("no python? yes python!".toList)).2 = [])) :=
  ⟨by decide, score_matched_characterization [(("Python".toList), 2)] ("dev".toList) ("no python? yes python!".toList) (by decide)⟩

/-- C6: increasing the weight of one keyword of the profile, with the text
(hence all occurrence counts), all other weights and the role fixed, never
decreases the total score. -/
theorem score_weight_monotone (pre post : List (Str × ℚ)) (k : Str) (w w' : ℚ)
    (role text : Str) (h : w ≤ w') :
    (Ranker.score (Ranker.init (pre ++ (k, w) :: post) role) text).1
      ≤ (Ranker.score (Ranker.init (pre ++ (k, w') :: post) role) text).1 := by
  by_cases he : strStarts errLower (toLowerStr text) = true
  · simp [Ranker.score, he]
  · have he' : strStarts errLower (toLowerStr text) = false := by
      rw [Bool.not_eq_true] at he
      exact he
    rw [score_of_not_err _ _ he', score_of_not_err _ _ he']
    have hin : List.Forall₂ (fun p q : Str × ℚ => p.1 = q.1 ∧ p.2 ≤ q.2)
        (pre ++ (k, w) :: post) (pre ++ (k, w') :: post) :=
      List.rel_append (kwLE_refl pre) (List.Forall₂.cons ⟨rfl, h⟩ (kwLE_refl post))
    have hkw : KwLE (Ranker.init (pre ++ (k, w) :: post) role).keywords
        (Ranker.init (pre ++ (k, w') :: post) role).keywords :=
      mkKeywords_foldl_le hin [] [] List.Forall₂.nil
    exact add_le_add_right (add_le_add_right (sumVals_scorePairs_le hkw _) _) _

/-- Witness for `score_weight_monotone` at a concrete profile and text. -/
theorem score_weight_monotone_witness :
    (1 : ℚ) ≤ 2 ∧
    (Ranker.score (Ranker.init ([] ++ (("sql".toList), 1) :: []) ("dev".toList)) ("sql dev".toList)).1
      ≤ (Ranker.score (Ranker.init ([] ++ (("sql".toList), 2) :: []) ("dev".toList)) ("sql dev".toList)).1 :=
  ⟨by norm_num, score_weight_monotone [] [] ("sql".toList) 1 2 ("dev".toList) ("sql dev".toList) (by norm_num)⟩

/-- C3 counterexample: in Scenario A the lowercased text has six distinct
alphabetic tokens of length at least 3 (`jane`, `doe`, `example`, `com`,
`python`, `sql`), not at most five as the claim states. -/
theorem scenario_a_counterexample :
    ¬(diversityCount (toLowerStr janeText) ≤ 5) := by decide

/-- C3 amended: with profile `{python: 2, sql: 1}` and empty role, Scenario A
yields matched `{python: 4, sql: 1}` and score `5 + 6/500` (= 5.012), the
diversity bonus coming from exactly six distinct alphabetic tokens of length
at least 3; `extract_contacts` finds the email `jane.doe@example.com`. -/
theorem scenario_a_amended :
    (Ranker.score (Ranker.init janeProfile []) janeText).2 = [(kwPython, 4), (kwSql, 1)] ∧
    (Ranker.score (Ranker.init janeProfile []) janeText).1 = 5 + 6 / 500 ∧
    diversityCount (toLowerStr janeText) = 6 ∧
    (extract_contacts janeText ("cv.pdf".toList)).2.1 = some ("jane.doe@example.com".toList) := by
  have hinit : Ranker.init janeProfile [] = ⟨janeProfile, []⟩ := rfl
  have h1 : countOccs kwPython (toLowerStr janeText) = 2 := by decide
  have h2 : countOccs kwSql (toLowerStr janeText) = 1 := by decide
  have h3 : diversityCount (toLowerStr janeText) = 6 := by decide
  have h4 : strStarts errLower (toLowerStr janeText) = false := by decide
  refine ⟨?_, ?_, h3, by decide⟩
  · rw [hinit]
    simp only [Ranker.score, h4, Bool.false_eq_true, if_false, janeProfile,
      scorePairs, List.filterMap_cons, List.filterMap_nil, h1, h2]
    norm_num
  · rw [hinit]
    simp only [Ranker.score, h4, Bool.false_eq_true, if_false, janeProfile,
      scorePairs, List.filterMap_cons, List.filterMap_nil, h1, h2, h3,
      roleBonus, divBonus, sumVals]
    norm_num

/-- C8: a ranking pass mutates only `score` and `matched` — name, email,
phone, path and text are unchanged — and it is idempotent per candidate:
ranking twice with the same ranker equals ranking once. -/
theorem rank_frame_idempotent (r : Ranker) (c : Candidate) :
    (rankCand r c).name = c.name ∧ (rankCand r c).email = c.email ∧
    (rankCand r c).phone = c.phone ∧ (rankCand r c).path = c.path ∧
    (rankCand r c).text = c.text ∧
    rankCand r (rankCand r c) = rankCand r c :=
  ⟨rfl, rfl, rfl, rfl, rfl, rfl⟩

/-- C5: after a ranking pass the candidate list is sorted descending by
score, and the sort is stable: for every score value, the candidates holding
it keep their original relative order; in particular two candidates both
scoring exactly 5.0, inserted as `[X, Y]`, come out as `[X, Y]`. -/
theorem rank_now_sorted_stable (r : Ranker) (cands : List Candidate) :
    List.Pairwise (fun a b => b.score ≤ a.score) (rank_now r cands) ∧
    (∀ s : ℚ, (rank_now r cands).filter (fun c => c.score == s)
        = (cands.map (rankCand r)).filter (fun c => c.score == s)) ∧
    (rank_now tieRanker [candX, candY]).map (fun c => c.name) = [("X".toList), ("Y".toList)] ∧
    (rank_now tieRanker [candX, candY]).map (fun c => c.score) = [5, 5] := by
  have hr : rank_now tieRanker [candX, candY]
      = [rankCand tieRanker candX, rankCand tieRanker candY] := by
    simp [rank_now, sortDesc, insertDesc, rankCand, candX, candY]
  have hs : (Ranker.score tieRanker pyTxt).1 = 5 := by
    have hinit : tieRanker = ⟨[(kwPython, 4998 / 1000)], []⟩ := rfl
    have h1 : countOccs kwPython (toLowerStr pyTxt) = 1 := by decide
    have h3 : diversityCount (toLowerStr pyTxt) = 1 := by decide
    have h4 : strStarts errLower (toLowerStr pyTxt) = false := by decide
    rw [hinit]
    simp only [Ranker.score, h4, Bool.false_eq_true, if_false,
      scorePairs, List.filterMap_cons, List.filterMap_nil, h1, h3,
      roleBonus, divBonus, sumVals]
    norm_num
  refine ⟨sortDesc_pairwise _, fun s => sortDesc_filter _ s, ?_, ?_⟩
  · rw [hr]; rfl
  · rw [hr]
    show [(Ranker.score tieRanker candX.text).1, (Ranker.score tieRanker candY.text).1] = [5, 5]
    have hx : candX.text = pyTxt := rfl
    have hy : candY.text = pyTxt := rfl
    rw [hx, hy, hs]

/-- C7: when neither name heuristic accepts (no acceptable capitalized
segment, no "Email"/"@" context), the name comes from the fallback filename:
strip the extension, turn underscore/hyphen runs into spaces and blank the
remaining non-name characters; `john_smith_resume.pdf` yields
`john smith resume`, and the `(Unknown)` placeholder appears exactly when the
filename-derived string is empty. -/
theorem extract_contacts_fallback (text fb : Str)
    (ha : stepAName text = none) (hb : stepBName text = none) :
    (extract_contacts text fb).1 = fallbackNameOf fb ∧
    fallbackNameOf ("john_smith_resume.pdf".toList) = "john smith resume".toList ∧
    (∀ f : Str, fallbackNameOf f = "(Unknown)".toList ↔ fallbackBase f = []) := by
  refine ⟨?_, by decide, ?_⟩
  · simp [extract_contacts, ha, hb]
  · intro f
    unfold fallbackNameOf
    by_cases hbase : fallbackBase f = []
    · simp [hbase]
    · simp only [hbase, if_neg, if_false, iff_false]
      exact fallbackBase_ne_unknown f

/-- Witness for `extract_contacts_fallback`: the empty text triggers neither
name heuristic. -/
theorem extract_contacts_fallback_witness :
    stepAName [] = none ∧ stepBName [] = none ∧
    ((extract_contacts [] ("john_smith_resume.pdf".toList)).1
        = fallbackNameOf ("john_smith_resume.pdf".toList) ∧
      fallbackNameOf ("john_smith_resume.pdf".toList) = "john smith resume".toList ∧
      (∀ f : Str, fallbackNameOf f = "(Unknown)".toList ↔ fallbackBase f = [])) :=
  ⟨by decide, by decide,
    extract_contacts_fallback [] ("john_smith_resume.pdf".toList) (by decide) (by decide)⟩

/-- C4: `parse_pdf` never lets an exception escape — its whole body runs
under `try`/`except` — and whenever any internal step fails (extractor crash,
file read error), the returned string is exactly the marker `[PARSE_ERROR]`
followed by a space and the failure description. -/
theorem parse_pdf_error_handling (env : PdfEnv) (e : Str)
    (h : parseBody env = Except.error e) :
    parse_pdf env = errUpper ++ ' ' :: e ∧
    strStarts errUpper (parse_pdf env) = true := by
  have hp : parse_pdf env = errUpper ++ ' ' :: e := by
    unfold parse_pdf
    rw [h]
  refine ⟨hp, ?_⟩
  rw [hp]
  exact strStarts_append errUpper (' ' :: e)

/-- Witness for `parse_pdf_error_handling`: a failing file read with no
pdfminer available. -/
theorem parse_pdf_error_handling_witness :
    parseBody ⟨false, Except.ok [], Except.error ("boom".toList)⟩
        = Except.error ("boom".toList) ∧
    (parse_pdf ⟨false, Except.ok [], Except.error ("boom".toList)⟩
        = errUpper ++ ' ' :: ("boom".toList) ∧
      strStarts errUpper (parse_pdf ⟨false, Except.ok [], Except.error ("boom".toList)⟩) = true) :=
  ⟨rfl, parse_pdf_error_handling ⟨false, Except.ok [], Except.error ("boom".toList)⟩ ("boom".toList) rfl⟩

/-- C9 counterexample: two `.pdf` members in different directories sharing
the base name `x.pdf` are both moved to the same cache path `c/x.pdf`; the
second move overwrites the first, so only content `2` survives and the
output repeats the single destination path — the collision is not resolved
by directory structure. -/
theorem unzip_pdfs_counterexample :
    (unzip_pdfs ("c".toList) [⟨("a/x.pdf".toList), 1⟩, ⟨("b/x.pdf".toList), 2⟩]).1
        = [("c/x.pdf".toList), ("c/x.pdf".toList)] ∧
    (unzip_pdfs ("c".toList) [⟨("a/x.pdf".toList), 1⟩, ⟨("b/x.pdf".toList), 2⟩]).2
        = [(("c/x.pdf".toList), 2)] := by
  constructor
  · decide
  · decide

/-- C9 amended: `unzip_pdfs` emits, for each member whose lowercased name
ends in `.pdf` and in archive order, the flattened path
`cache/<basename>`; members sharing a base filename collide on that single
path (the output list repeats it) and the later member overwrites the
earlier, so only the last colliding member's content survives. -/
theorem unzip_pdfs_flatten (cache : Str) (members : List ZipMember) :
    (unzip_pdfs cache members).1
      = (members.filter (fun m => strEnds (".pdf".toList) (toLowerStr m.filename))).map
          (fun m => pathJoin cache (pyBasename m.filename)) ∧
    fsGet (unzip_pdfs ("c".toList) [⟨("a/x.pdf".toList), 1⟩, ⟨("b/x.pdf".toList), 2⟩]).2
        ("c/x.pdf".toList) = some 2 := by
  refine ⟨?_, by decide⟩
  have h := unzip_foldl_out cache members [] []
  simpa [unzip_pdfs] using h
